import Mathlib

/-!
# Verification of the devfest web scraper (`web_scraper.py`)

A shallow embedding of the scraper's data pipeline:

* URL cleaning and joining, modelling Python's `urllib.parse.urlsplit`,
  `urlunsplit`, `urljoin` (including the `urlparse` params split) as they are
  used by the script.  Strings are modelled as `List Char`; the WHATWG
  control-character stripping of very recent CPython versions is not modelled,
  and `str.isdigit` / `str.isalpha` are modelled on their ASCII fragment
  (the script only ever feeds them ASCII page numbers and URL schemes).
* ID assignment (`f"D{i:04d}"` over `enumerate(all_data, start=1)`).
* `crawl_page`'s per-card loop with its blanket `except: continue`.
* `get_last_page_number` and the page loop `range(1, last_page + 1)`.
* `download_video` over an abstract network oracle together with an explicit
  file-system state, and the thread-pool collection of results
  (`as_completed` modelled as an arbitrary permutation of the submitted
  entries).
* The CSV manifest writer (`csv.writer` with default dialect:
  `QUOTE_MINIMAL`, delimiter `,`, line terminator `\r\n`).
-/

/-! ## Configuration constants (the CONFIG block of the script) -/

def BASE_URL : String := "https://qipedc.moet.gov.vn/dictionary"

def VIDEO_DIR : String := "Dataset/Videos"

def LABEL_PATH : String := "Dataset/Text/label.csv"

def MAX_THREADS : Nat := 5

/-! ## `urllib.parse` model

`breakAt c l` models Python's `l.split(c, 1)`: `none` when `c` does not occur,
otherwise the parts before and after the first occurrence. -/

def breakAt (c : Char) : List Char → Option (List Char × List Char)
  | [] => none
  | x :: xs =>
    if x = c then some ([], xs)
    else
      match breakAt c xs with
      | some (a, b) => some (x :: a, b)
      | none => none

/-- The `scheme_chars` constant of `urllib.parse`. -/
def scheme_chars : List Char :=
  "abcdefghijklmnopqrstuvwxyzABCDEFGHIJKLMNOPQRSTUVWXYZ0123456789+-.".data

/-- ASCII letters: the characters accepted by `url[0].isascii() and url[0].isalpha()`. -/
def ascii_letters : List Char :=
  "abcdefghijklmnopqrstuvwxyzABCDEFGHIJKLMNOPQRSTUVWXYZ".data

/-- ASCII lower-casing, the effective behaviour of `str.lower` on scheme text
(scheme candidates are ASCII by construction). -/
def asciiLower (c : Char) : Char :=
  if c ∈ "ABCDEFGHIJKLMNOPQRSTUVWXYZ".data then Char.ofNat (c.toNat + 32) else c

/-- The scheme-detection step of `urlsplit`: the text before the first `':'`
must start with an ASCII letter and continue with `scheme_chars`; the scheme is
lower-cased.  Returns `none` when no scheme is recognised. -/
def splitScheme (url : List Char) : Option (List Char × List Char) :=
  match breakAt ':' url with
  | none => none
  | some ([], _) => none
  | some (c :: cs, rest) =>
    if c ∈ ascii_letters ∧ (∀ d ∈ cs, d ∈ scheme_chars) then
      some ((c :: cs).map asciiLower, rest)
    else none

/-- A character ending the netloc in `_splitnetloc` (searched among `'/?#'`). -/
def notDelim (c : Char) : Bool := !(c = '/' || c = '?' || c = '#')

/-- The netloc step: if the remaining text starts with `"//"`, the netloc runs
until the first of `'/'`, `'?'`, `'#'`. -/
def splitNetloc (u : List Char) : List Char × List Char :=
  if u.take 2 = ['/', '/'] then
    ((u.drop 2).takeWhile notDelim, (u.drop 2).dropWhile notDelim)
  else ([], u)

/-- `url.split('#', 1)` when `'#'` occurs, else no fragment. -/
def splitFragment (u : List Char) : List Char × List Char :=
  match breakAt '#' u with
  | some (a, b) => (a, b)
  | none => (u, [])

/-- `url.split('?', 1)` when `'?'` occurs, else no query. -/
def splitQuery (u : List Char) : List Char × List Char :=
  match breakAt '?' u with
  | some (a, b) => (a, b)
  | none => (u, [])

structure SplitResult where
  scheme : List Char
  netloc : List Char
  path : List Char
  query : List Char
  fragment : List Char
deriving DecidableEq, Repr

/-- The scheme step of `urlsplit`: the default scheme is kept when no scheme
is recognised in the URL. -/
def schemePart (dflt url : List Char) : List Char × List Char :=
  match splitScheme url with
  | some p => p
  | none => (dflt, url)

/-- `urllib.parse.urlsplit(url, scheme=dflt)` (with `allow_fragments=True`). -/
def urlsplit (dflt url : List Char) : SplitResult :=
  let p1 := schemePart dflt url
  let p2 := splitNetloc p1.2
  let p3 := splitFragment p2.2
  let p4 := splitQuery p3.1
  ⟨p1.1, p2.1, p4.1, p4.2, p3.2⟩

/-- `urllib.parse.urlunsplit`. -/
def urlunsplit (r : SplitResult) : List Char :=
  let u1 :=
    if r.netloc ≠ [] ∨ r.path.take 2 = ['/', '/'] then
      '/' :: '/' :: (r.netloc ++
        (if r.path ≠ [] ∧ r.path.take 1 ≠ ['/'] then '/' :: r.path else r.path))
    else r.path
  let u2 := if r.scheme ≠ [] then r.scheme ++ ':' :: u1 else u1
  let u3 := if r.query ≠ [] then u2 ++ '?' :: r.query else u2
  if r.fragment ≠ [] then u3 ++ '#' :: r.fragment else u3

/-- The per-card URL cleaning of `crawl_page` (lines 191-192):
`urlunsplit((parts.scheme, parts.netloc, parts.path, '', ''))`. -/
def clean_src (src : String) : String :=
  let parts := urlsplit [] src.data
  ⟨urlunsplit ⟨parts.scheme, parts.netloc, parts.path, [], []⟩⟩

/-- `urllib.parse._splitparams`: split `';'`-params off the last path
segment. -/
def splitparams (url : List Char) : List Char × List Char :=
  if '/' ∈ url then
    match breakAt '/' url.reverse with
    | some (bR, aR) =>
      match breakAt ';' bR.reverse with
      | some (x, y) => (aR.reverse ++ '/' :: x, y)
      | none => (url, [])
    | none => (url, [])
  else
    match breakAt ';' url with
    | some (x, y) => (x, y)
    | none => (url, [])

def uses_relative : List (List Char) :=
  [[], "ftp".data, "http".data, "gopher".data, "nntp".data, "imap".data,
   "wais".data, "file".data, "https".data, "shttp".data, "mms".data,
   "prospero".data, "rtsp".data, "rtspu".data, "sftp".data, "svn".data,
   "svn+ssh".data, "ws".data, "wss".data]

def uses_netloc : List (List Char) :=
  [[], "ftp".data, "http".data, "gopher".data, "nntp".data, "telnet".data,
   "imap".data, "wais".data, "file".data, "mms".data, "https".data,
   "shttp".data, "snews".data, "prospero".data, "rtsp".data, "rtspu".data,
   "rsync".data, "svn".data, "svn+ssh".data, "sftp".data, "nfs".data,
   "git".data, "git+ssh".data, "ws".data, "wss".data, "itms-services".data]

def uses_params : List (List Char) :=
  [[], "ftp".data, "hdl".data, "prospero".data, "http".data, "imap".data,
   "https".data, "shttp".data, "rtsp".data, "rtspu".data, "sip".data,
   "sips".data, "mms".data, "sftp".data, "tel".data]

structure ParseResult where
  scheme : List Char
  netloc : List Char
  path : List Char
  params : List Char
  query : List Char
  fragment : List Char
deriving DecidableEq, Repr

/-- `urllib.parse.urlparse(url, scheme=dflt)`. -/
def urlparse (dflt url : List Char) : ParseResult :=
  if (urlsplit dflt url).scheme ∈ uses_params ∧ ';' ∈ (urlsplit dflt url).path then
    ⟨(urlsplit dflt url).scheme, (urlsplit dflt url).netloc,
      (splitparams (urlsplit dflt url).path).1,
      (splitparams (urlsplit dflt url).path).2,
      (urlsplit dflt url).query, (urlsplit dflt url).fragment⟩
  else
    ⟨(urlsplit dflt url).scheme, (urlsplit dflt url).netloc,
      (urlsplit dflt url).path, [], (urlsplit dflt url).query,
      (urlsplit dflt url).fragment⟩

/-- `urllib.parse.urlunparse`. -/
def urlunparse (r : ParseResult) : List Char :=
  urlunsplit ⟨r.scheme, r.netloc,
    (if r.params ≠ [] then r.path ++ ';' :: r.params else r.path),
    r.query, r.fragment⟩

/-- Auxiliary structural recursion for `str.split(sep)` (split on every
occurrence of the separator). -/
def pySplitAux (c : Char) : List Char → List Char → List (List Char)
  | [], acc => [acc.reverse]
  | x :: xs, acc =>
    if x = c then acc.reverse :: pySplitAux c xs []
    else pySplitAux c xs (x :: acc)

/-- Python `str.split(sep)` with a one-character separator. -/
def pySplit (c : Char) (l : List Char) : List (List Char) := pySplitAux c l []

/-- The `segments[1:-1] = filter(None, segments[1:-1])` step of `urljoin`. -/
def filterMiddle (l : List (List Char)) : List (List Char) :=
  match l with
  | [] => []
  | [x] => [x]
  | x :: y :: rest =>
    x :: (((y :: rest).dropLast).filter (fun s => s ≠ [])) ++ [(y :: rest).getLastD []]

/-- The `'..'` / `'.'` resolution loop of `urljoin` (a pop on the empty list is
silently ignored, matching the `except IndexError: pass`). -/
def resolveSegments (segs : List (List Char)) : List (List Char) :=
  segs.foldl
    (fun acc seg =>
      if seg = ['.', '.'] then acc.dropLast
      else if seg = ['.'] then acc
      else acc ++ [seg]) []

/-- The relative-path resolution of `urljoin` (the `base_parts` / `segments`
machinery at the end of the function). -/
def urljoinSegments (b u : ParseResult) : List Char :=
  let base_parts0 := pySplit '/' b.path
  let base_parts :=
    if base_parts0.getLastD [] ≠ [] then base_parts0.dropLast else base_parts0
  let segments :=
    if u.path.take 1 = ['/'] then pySplit '/' u.path
    else filterMiddle (base_parts ++ pySplit '/' u.path)
  let resolved := resolveSegments segments
  let resolved2 :=
    if segments.getLastD [] = ['.'] ∨ segments.getLastD [] = ['.', '.'] then
      resolved ++ [[]]
    else resolved
  let joined := List.intercalate ['/'] resolved2
  urlunparse ⟨u.scheme, (if u.scheme ∈ uses_netloc then b.netloc else u.netloc),
    (if joined = [] then ['/'] else joined), u.params, u.query, u.fragment⟩

/-- The body of `urljoin` after the early same-scheme check: the netloc
switch, the empty-path shortcut and the segment resolution. -/
def urljoinResolve (b u : ParseResult) : List Char :=
  if u.scheme ∈ uses_netloc ∧ u.netloc ≠ [] then
    urlunparse ⟨u.scheme, u.netloc, u.path, u.params, u.query, u.fragment⟩
  else if u.path = [] ∧ u.params = [] then
    urlunparse ⟨u.scheme, (if u.scheme ∈ uses_netloc then b.netloc else u.netloc),
      b.path, b.params, (if u.query = [] then b.query else u.query), u.fragment⟩
  else urljoinSegments b u

/-- `urllib.parse.urljoin`. -/
def urljoin (base url : List Char) : List Char :=
  if base = [] then url
  else if url = [] then base
  else if (urlparse (urlparse [] base).scheme url).scheme ≠ (urlparse [] base).scheme ∨
      (urlparse (urlparse [] base).scheme url).scheme ∉ uses_relative then url
  else urljoinResolve (urlparse [] base) (urlparse (urlparse [] base).scheme url)

/-- String-level wrapper for `urljoin`, as used on line 298. -/
def urljoinS (base url : String) : String := ⟨urljoin base.data url.data⟩

/-! ## ID assignment (lines 293-299) -/

/-- A decimal digit character. -/
def decChar (n : Nat) : Char :=
  match n with
  | 0 => '0' | 1 => '1' | 2 => '2' | 3 => '3' | 4 => '4'
  | 5 => '5' | 6 => '6' | 7 => '7' | 8 => '8' | _ => '9'

/-- Fuelled decimal rendering (structural so that it reduces in the kernel). -/
def natDigitsAux : Nat → Nat → List Char
  | 0, _ => []
  | fuel + 1, n =>
    if n < 10 then [decChar n]
    else natDigitsAux fuel (n / 10) ++ [decChar (n % 10)]

/-- The decimal digit string of `n` (Python `str(n)` for naturals). -/
def natDigits (n : Nat) : List Char := natDigitsAux (n + 1) n

/-- Python `f"{n:04d}"` for a natural number: left-pad the decimal digits with
`'0'` to at least four characters. -/
def pad4 (n : Nat) : List Char :=
  List.replicate (4 - (natDigits n).length) '0' ++ natDigits n

/-- The assigned ID `f"D{i:04d}"`. -/
def vidId (i : Nat) : String := ⟨'D' :: pad4 i⟩

/-- One element of the script's `entries` list:
`(vid_id, full_link, label, filename)`. -/
structure Entry where
  vid_id : String
  url : String
  label : String
  filename : String
deriving DecidableEq, Repr

/-- The body of `for i, (label, link) in enumerate(all_data, start=1)`,
carrying the running counter `i`. -/
def entriesFrom (i : Nat) : List (String × String) → List Entry
  | [] => []
  | (labelText, link) :: rest =>
    { vid_id := vidId i, url := urljoinS BASE_URL link, label := labelText,
      filename := vidId i ++ ".mp4" } :: entriesFrom (i + 1) rest

/-- The script's `entries` list built from the crawled `all_data`. -/
def entries (all_data : List (String × String)) : List Entry :=
  entriesFrom 1 all_data

/-! ## Page crawling (lines 159-217) -/

/-- Python `str.strip()` on its ASCII-whitespace fragment (the labels on this
site carry no exotic unicode whitespace): drop whitespace from both ends. -/
def pyStrip (s : String) : String :=
  ⟨((s.data.dropWhile Char.isWhitespace).reverse.dropWhile
      Char.isWhitespace).reverse⟩

/-- The observable outcome of processing one card of the grid: either every
DOM interaction succeeded, yielding the raw label text and the iframe `src`,
or some step raised (stale element, timeout, …). -/
inductive CardOutcome where
  | success (labelText src : String) : CardOutcome
  | failure : CardOutcome
deriving DecidableEq, Repr

/-- The card loop of `crawl_page`: a failing card is skipped
(`except Exception: continue`); a successful card appends
`(label.strip(), clean_src)` to `page_data` provided the `src` is non-empty
(`if src:`).  The iterative appends are expressed by structural recursion,
producing the list in the same order. -/
def crawl_page : List CardOutcome → List (String × String)
  | [] => []
  | CardOutcome.failure :: rest => crawl_page rest
  | CardOutcome.success labelText src :: rest =>
    if src = "" then crawl_page rest
    else (pyStrip labelText, clean_src src) :: crawl_page rest

/-! ## Pagination detection (lines 219-244) -/

/-- What `get_last_page_number` observes: either some step raised (the outer
`except` returns 1), or the `value` attributes of the Last-buttons and the
page buttons (`none` models an absent attribute). -/
inductive PaginationView where
  | failure : PaginationView
  | found (lastBtns pageBtns : List (Option String)) : PaginationView

/-- ASCII `str.isdigit`. -/
def isdigit (s : String) : Bool :=
  !s.data.isEmpty && s.data.all (fun c => c ∈ "0123456789".data)

/-- `int(s)` on a decimal digit string. -/
def pyInt (s : String) : Nat :=
  s.data.foldl (fun a c => a * 10 + (c.toNat - 48)) 0

/-- The `for btn in last_btns: … if val and val.isdigit(): return int(val)`
loop. -/
def firstLastBtnVal : List (Option String) → Option Nat
  | [] => none
  | none :: rest => firstLastBtnVal rest
  | some v :: rest =>
    if v ≠ "" ∧ isdigit v then some (pyInt v) else firstLastBtnVal rest

/-- The collection of page-button values (`nums`); a raising `get_attribute`
or a non-digit value contributes nothing. -/
def pageBtnVal (o : Option String) : Option Nat :=
  match o with
  | none => none
  | some v => if v ≠ "" ∧ isdigit v then some (pyInt v) else none

/-- `get_last_page_number`. -/
def get_last_page_number (v : PaginationView) : Nat :=
  match v with
  | .failure => 1
  | .found lastBtns pageBtns =>
    match firstLastBtnVal lastBtns with
    | some n => n
    | none =>
      match pageBtns.filterMap pageBtnVal with
      | [] => 1
      | h :: t => t.foldl Nat.max h

/-- The page numbers iterated by `for page in range(1, last_page + 1)`. -/
def pagesVisited (last_page : Nat) : List Nat := List.range' 1 last_page

/-! ## Download pipeline (lines 301-324) -/

/-- File contents as byte lists. -/
abbrev Bytes := List Nat

/-- The observable network behaviour of one `session.get` + `raise_for_status`
+ `iter_content` interaction for a given URL:

* `failEarly`: the request, the status check or the `open` raised before any
  byte was written;
* `body chunks ok`: the file was opened (truncated) and `chunks` were obtained
  from `iter_content` and written; `ok = false` means the stream then raised
  mid-transfer, `ok = true` means it completed. -/
inductive NetResult where
  | failEarly : NetResult
  | body (chunks : List Bytes) (ok : Bool) : NetResult
deriving DecidableEq, Repr

/-- A file-system state: path to contents. -/
def Fs : Type := String → Option Bytes

def Fs.set (fs : Fs) (p : String) (content : Bytes) : Fs :=
  fun q => if q = p then some content else fs q

def emptyFs : Fs := fun _ => none

/-- `os.path.join(VIDEO_DIR, filename)`. -/
def save_path (e : Entry) : String := VIDEO_DIR ++ "/" ++ e.filename

/-- `download_video(entry)`: returns the `(vid_id, filename, label)` record on
success and `None` on any caught exception, together with the resulting
file-system state. -/
def download_video (net : String → NetResult) (fs : Fs) (e : Entry) :
    Option (String × String × String) × Fs :=
  match net e.url with
  | .failEarly => (none, fs)
  | .body chunks ok =>
    let fs2 := fs.set (save_path e) chunks.flatten
    if ok then (some (e.vid_id, e.filename, e.label), fs2) else (none, fs2)

/-- The record part of a download, which does not depend on the file system. -/
def downloadRecord (net : String → NetResult) (e : Entry) :
    Option (String × String × String) :=
  (download_video net emptyFs e).1

/-- The `results` list: futures are consumed in completion order (`completed`,
an arbitrary permutation of the submitted entries) and truthy results are
appended. -/
def results (net : String → NetResult) (completed : List Entry) :
    List (String × String × String) :=
  completed.filterMap (downloadRecord net)

/-! ## CSV manifest (lines 326-330): `csv.writer` with the default dialect -/

def needsQuote (s : String) : Bool :=
  s.data.any (fun c => c = ',' || c = '"' || c = '\r' || c = '\n')

def csvQuote (s : String) : String :=
  ⟨'"' :: (s.data.map (fun c => if c = '"' then ['"', '"'] else [c])).flatten ++ ['"']⟩

def csvField (s : String) : String := if needsQuote s then csvQuote s else s

def csvRow (r : List String) : String :=
  String.intercalate "," (r.map csvField) ++ "\r\n"

def csvFile : List (List String) → String
  | [] => ""
  | r :: rs => csvRow r ++ csvFile rs

def recordRow (r : String × String × String) : List String := [r.1, r.2.1, r.2.2]

/-- The manifest written by `writer.writerow(["ID","VIDEO","LABEL"])` followed
by `writer.writerows(results)`. -/
def writeCsv (rs : List (String × String × String)) : String :=
  csvFile (["ID", "VIDEO", "LABEL"] :: rs.map recordRow)

/-- A text file system for the label CSV. -/
def TextFs : Type := String → Option String

/-- `open(LABEL_PATH, "w")` + the CSV writes: unconditional overwrite. -/
def writeLabelFile (tfs : TextFs) (rs : List (String × String × String)) : TextFs :=
  fun p => if p = LABEL_PATH then some (writeCsv rs) else tfs p

/-! ## Auxiliary definitions used by the verification -/

/-- Decimal decoding, inverse to the digit rendering; used to prove that the
assigned IDs are injective. -/
def decimalVal (l : List Char) : Nat :=
  l.foldl (fun a c => a * 10 + (c.toNat - 48)) 0

/-- A sample entry, used in concrete counterexamples and witnesses. -/
def sampleEntry : Entry :=
  { vid_id := "D0001", url := "https://qipedc.moet.gov.vn/videos/D0001.mp4",
    label := "hello", filename := "D0001.mp4" }

/-- A second sample entry. -/
def sampleEntry2 : Entry :=
  { vid_id := "D0002", url := "https://qipedc.moet.gov.vn/videos/D0002.mp4",
    label := "bye", filename := "D0002.mp4" }

/-- A network oracle whose streams always fail after two bytes were written. -/
def netMidStream : String → NetResult := fun _ => NetResult.body [[104, 105]] false

/-- A network oracle whose requests always fail before any write. -/
def netFailAll : String → NetResult := fun _ => NetResult.failEarly

/-- A network oracle that serves only `sampleEntry`'s URL. -/
def netFirstOnly : String → NetResult := fun u =>
  if u = sampleEntry.url then NetResult.body [[1, 2], [3]] true else NetResult.failEarly

/-! ## Lemmas about the splitting combinators -/

theorem breakAt_of_not_mem {c : Char} : ∀ {l : List Char}, c ∉ l → breakAt c l = none
  | [], _ => rfl
  | x :: xs, h => by
    have hx : ¬ x = c := fun hxc => h (hxc ▸ List.mem_cons_self x xs)
    have ih := breakAt_of_not_mem (l := xs) (fun hm => h (List.mem_cons_of_mem _ hm))
    simp [breakAt, hx, ih]

theorem breakAt_eq_some {c : Char} : ∀ {l a b : List Char},
    breakAt c l = some (a, b) → l = a ++ c :: b ∧ c ∉ a := by
  intro l
  induction l with
  | nil => intro a b h; simp [breakAt] at h
  | cons x xs ih =>
    intro a b h
    rw [breakAt] at h
    by_cases hx : x = c
    · rw [if_pos hx] at h
      have h' : ([] : List Char) = a ∧ xs = b :=
        ⟨congrArg Prod.fst (Option.some.inj h), congrArg Prod.snd (Option.some.inj h)⟩
      obtain ⟨rfl, rfl⟩ := h'
      subst hx
      simp
    · rw [if_neg hx] at h
      cases hxs : breakAt c xs with
      | none => rw [hxs] at h; cases h
      | some p =>
        obtain ⟨a1, b1⟩ := p
        rw [hxs] at h
        have h' := Option.some.inj h
        have ha : x :: a1 = a := congrArg Prod.fst h'
        have hb : b1 = b := congrArg Prod.snd h'
        obtain ⟨h1, h2⟩ := ih hxs
        subst ha; subst hb
        refine ⟨by simp [h1], ?_⟩
        intro hc
        rcases List.mem_cons.mp hc with hc | hc
        · exact hx hc.symm
        · exact h2 hc

theorem breakAt_append {c : Char} {a : List Char} (h : c ∉ a) (b : List Char) :
    breakAt c (a ++ c :: b) = some (a, b) := by
  induction a with
  | nil => simp [breakAt]
  | cons x xs ih =>
    have hx : ¬ x = c := fun hxc => h (hxc ▸ List.mem_cons_self x xs)
    have ih' := ih (fun hm => h (List.mem_cons_of_mem _ hm))
    simp [breakAt, hx, ih']

theorem takeWhile_append_all {q : Char → Bool} :
    ∀ {n : List Char}, (∀ c ∈ n, q c = true) → ∀ p : List Char,
      (n ++ p).takeWhile q = n ++ p.takeWhile q ∧ (n ++ p).dropWhile q = p.dropWhile q
  | [], _, p => ⟨rfl, rfl⟩
  | x :: xs, h, p => by
    have hx : q x = true := h x (List.mem_cons_self x xs)
    have ih := takeWhile_append_all (n := xs) (fun c hc => h c (List.mem_cons_of_mem _ hc)) p
    simp [List.takeWhile_cons, List.dropWhile_cons, hx, ih.1, ih.2]

theorem takeWhile_nil_head {q : Char → Bool} {x : Char} (xs : List Char) (h : q x = false) :
    (x :: xs).takeWhile q = [] ∧ (x :: xs).dropWhile q = x :: xs := by
  simp [List.takeWhile_cons, List.dropWhile_cons, h]

theorem dropWhile_shape (q : Char → Bool) :
    ∀ l : List Char, l.dropWhile q = [] ∨
      ∃ x xs, l.dropWhile q = x :: xs ∧ q x = false
  | [] => Or.inl rfl
  | x :: xs => by
    by_cases hx : q x = true
    · simpa [List.dropWhile_cons, hx] using dropWhile_shape q xs
    · right
      exact ⟨x, xs, by simp [List.dropWhile_cons, hx], by simpa using hx⟩

/-! ## Character facts (settled by evaluation over the explicit char lists) -/

theorem asciiLower_scheme_char : ∀ c ∈ scheme_chars,
    asciiLower c ∈ scheme_chars ∧ asciiLower (asciiLower c) = asciiLower c ∧
      asciiLower c ≠ ':' := by decide

theorem asciiLower_letter : ∀ c ∈ ascii_letters,
    asciiLower c ∈ ascii_letters ∧ asciiLower (asciiLower c) = asciiLower c := by decide

theorem letter_scheme_char : ∀ c ∈ ascii_letters, c ∈ scheme_chars := by decide

theorem delim_not_letter : ∀ c : Char, c = '/' ∨ c = '?' ∨ c = '#' →
    c ∉ ascii_letters ∧ c ≠ ':' := by
  intro c h
  rcases h with rfl | rfl | rfl <;> exact ⟨by decide, by decide⟩
/-! ## Lemmas about scheme detection -/

theorem splitScheme_eq_none_break {url : List Char} (hb : breakAt ':' url = none) :
    splitScheme url = none := by
  rw [splitScheme, hb]

theorem splitScheme_eq_nil_break {url r : List Char}
    (hb : breakAt ':' url = some ([], r)) : splitScheme url = none := by
  rw [splitScheme, hb]

theorem splitScheme_eq_cons_break {url r : List Char} {c : Char} {cs : List Char}
    (hb : breakAt ':' url = some (c :: cs, r)) :
    splitScheme url =
      if c ∈ ascii_letters ∧ (∀ d ∈ cs, d ∈ scheme_chars) then
        some ((c :: cs).map asciiLower, r)
      else none := by
  rw [splitScheme, hb]

theorem splitScheme_inv {url s rest : List Char} (h : splitScheme url = some (s, rest)) :
    ∃ c cs, s = (c :: cs).map asciiLower ∧ c ∈ ascii_letters ∧
      (∀ d ∈ cs, d ∈ scheme_chars) ∧ url = (c :: cs) ++ ':' :: rest := by
  cases hb : breakAt ':' url with
  | none => rw [splitScheme_eq_none_break hb] at h; cases h
  | some p =>
    obtain ⟨pre, r⟩ := p
    cases pre with
    | nil => rw [splitScheme_eq_nil_break hb] at h; cases h
    | cons c cs =>
      rw [splitScheme_eq_cons_break hb] at h
      by_cases hc : c ∈ ascii_letters ∧ ∀ d ∈ cs, d ∈ scheme_chars
      · rw [if_pos hc] at h
        have h' := Option.some.inj h
        have hs : (c :: cs).map asciiLower = s := congrArg Prod.fst h'
        have hr : r = rest := congrArg Prod.snd h'
        obtain ⟨hurl, -⟩ := breakAt_eq_some hb
        exact ⟨c, cs, hs.symm, hc.1, hc.2, by rw [hurl, hr]⟩
      · rw [if_neg hc] at h; cases h

theorem map_asciiLower_fix {c : Char} {cs : List Char} (hc : c ∈ ascii_letters)
    (hcs : ∀ d ∈ cs, d ∈ scheme_chars) :
    ((c :: cs).map asciiLower).map asciiLower = (c :: cs).map asciiLower := by
  rw [List.map_map]
  refine List.map_congr_left ?_
  intro d hd
  rcases List.mem_cons.mp hd with rfl | hd
  · exact (asciiLower_letter d hc).2
  · exact (asciiLower_scheme_char d (hcs d hd)).2.1

theorem colon_not_mem_lowered {c : Char} {cs : List Char} (hc : c ∈ ascii_letters)
    (hcs : ∀ d ∈ cs, d ∈ scheme_chars) :
    ':' ∉ asciiLower c :: cs.map asciiLower := by
  intro hm
  rcases List.mem_cons.mp hm with hm | hm
  · exact (asciiLower_scheme_char c (letter_scheme_char c hc)).2.2 hm.symm
  · obtain ⟨d, hd, hde⟩ := List.mem_map.mp hm
    exact (asciiLower_scheme_char d (hcs d hd)).2.2 hde

theorem splitScheme_mk {c : Char} {cs : List Char} (rest : List Char)
    (hc : c ∈ ascii_letters) (hcs : ∀ d ∈ cs, d ∈ scheme_chars) :
    splitScheme ((asciiLower c :: cs.map asciiLower) ++ ':' :: rest) =
      some (asciiLower c :: cs.map asciiLower, rest) := by
  have hnc := colon_not_mem_lowered hc hcs
  have hb := breakAt_append hnc rest
  rw [splitScheme_eq_cons_break hb]
  have hcond : asciiLower c ∈ ascii_letters ∧
      ∀ d ∈ cs.map asciiLower, d ∈ scheme_chars := by
    refine ⟨(asciiLower_letter c hc).1, ?_⟩
    intro d hd
    obtain ⟨d0, hd0, rfl⟩ := List.mem_map.mp hd
    exact (asciiLower_scheme_char d0 (hcs d0 hd0)).1
  rw [if_pos hcond]
  exact congrArg (fun l => some (l, rest)) (map_asciiLower_fix hc hcs)

theorem splitScheme_head_not_letter {x : Char} (xs : List Char)
    (h1 : x ∉ ascii_letters) : splitScheme (x :: xs) = none := by
  cases hb : breakAt ':' (x :: xs) with
  | none => exact splitScheme_eq_none_break hb
  | some p =>
    obtain ⟨a, b⟩ := p
    cases a with
    | nil => exact splitScheme_eq_nil_break hb
    | cons c cs =>
      obtain ⟨heq, -⟩ := breakAt_eq_some hb
      have hx : x = c := (List.cons.injEq x xs c (cs ++ ':' :: b) ▸ heq).1
      rw [splitScheme_eq_cons_break hb, if_neg]
      intro hcontra
      exact h1 (hx ▸ hcontra.1)

theorem splitScheme_none_append {p t : List Char} (h : splitScheme (p ++ t) = none) :
    splitScheme p = none := by
  cases hb : breakAt ':' p with
  | none => exact splitScheme_eq_none_break hb
  | some pr =>
    obtain ⟨a, b⟩ := pr
    obtain ⟨hp, hna⟩ := breakAt_eq_some hb
    have hb2 : breakAt ':' (p ++ t) = some (a, b ++ t) := by
      rw [hp, List.append_assoc]
      exact breakAt_append hna (b ++ t)
    cases a with
    | nil => exact splitScheme_eq_nil_break hb
    | cons c cs =>
      rw [splitScheme_eq_cons_break hb2] at h
      rw [splitScheme_eq_cons_break hb]
      by_cases hc : c ∈ ascii_letters ∧ ∀ d ∈ cs, d ∈ scheme_chars
      · rw [if_pos hc] at h; cases h
      · rw [if_neg hc]

/-! ## Lemmas about the `urlsplit` pipeline -/

theorem not_mem_of_breakAt_none {c : Char} : ∀ {l : List Char},
    breakAt c l = none → c ∉ l
  | [], _, hm => by cases hm
  | x :: xs, h, hm => by
    rw [breakAt] at h
    by_cases hx : x = c
    · rw [if_pos hx] at h; cases h
    · rw [if_neg hx] at h
      cases hxs : breakAt c xs with
      | some p =>
        obtain ⟨a, b⟩ := p
        rw [hxs] at h
        cases h
      | none =>
        rcases List.mem_cons.mp hm with rfl | hm2
        · exact hx rfl
        · exact not_mem_of_breakAt_none hxs hm2

theorem schemePart_some {dflt url s rest : List Char}
    (h : splitScheme url = some (s, rest)) : schemePart dflt url = (s, rest) := by
  rw [schemePart, h]

theorem schemePart_none {dflt url : List Char}
    (h : splitScheme url = none) : schemePart dflt url = (dflt, url) := by
  rw [schemePart, h]

theorem splitFragment_spec (u : List Char) :
    (∃ t, u = (splitFragment u).1 ++ t) ∧ '#' ∉ (splitFragment u).1 ∧
      ((splitFragment u).1 = [] ∨ (splitFragment u).1.head? = u.head?) := by
  cases hb : breakAt '#' u with
  | none =>
    have he : splitFragment u = (u, []) := by rw [splitFragment, hb]
    rw [he]
    exact ⟨⟨[], by simp⟩, not_mem_of_breakAt_none hb, Or.inr rfl⟩
  | some p =>
    obtain ⟨a, b⟩ := p
    have he : splitFragment u = (a, b) := by rw [splitFragment, hb]
    obtain ⟨hu, hna⟩ := breakAt_eq_some hb
    rw [he]
    refine ⟨⟨'#' :: b, hu⟩, hna, ?_⟩
    cases a with
    | nil => exact Or.inl rfl
    | cons x xs => exact Or.inr (by rw [hu]; rfl)

theorem splitQuery_spec (u : List Char) :
    (∃ t, u = (splitQuery u).1 ++ t) ∧ '?' ∉ (splitQuery u).1 ∧
      ((splitQuery u).1 = [] ∨ (splitQuery u).1.head? = u.head?) := by
  cases hb : breakAt '?' u with
  | none =>
    have he : splitQuery u = (u, []) := by rw [splitQuery, hb]
    rw [he]
    exact ⟨⟨[], by simp⟩, not_mem_of_breakAt_none hb, Or.inr rfl⟩
  | some p =>
    obtain ⟨a, b⟩ := p
    have he : splitQuery u = (a, b) := by rw [splitQuery, hb]
    obtain ⟨hu, hna⟩ := breakAt_eq_some hb
    rw [he]
    refine ⟨⟨'?' :: b, hu⟩, hna, ?_⟩
    cases a with
    | nil => exact Or.inl rfl
    | cons x xs => exact Or.inr (by rw [hu]; rfl)

/-- Combined shape facts for the path component extracted from `u2` (the text
after netloc removal). -/
theorem pathPart_spec (u2 : List Char) :
    (∃ t, u2 = (splitQuery (splitFragment u2).1).1 ++ t) ∧
    '#' ∉ (splitQuery (splitFragment u2).1).1 ∧
    '?' ∉ (splitQuery (splitFragment u2).1).1 ∧
    ((splitQuery (splitFragment u2).1).1 = [] ∨
      (splitQuery (splitFragment u2).1).1.head? = u2.head?) := by
  obtain ⟨⟨t1, h1⟩, hf, hh⟩ := splitFragment_spec u2
  obtain ⟨⟨t2, h2⟩, hq, hh2⟩ := splitQuery_spec (splitFragment u2).1
  refine ⟨⟨t2 ++ t1, ?_⟩, ?_, hq, ?_⟩
  · conv_lhs => rw [h1, h2]
    rw [List.append_assoc]
  · intro hm
    exact hf (h2 ▸ List.mem_append_left t2 hm)
  · rcases hh2 with hp | hp
    · exact Or.inl hp
    · rcases hh with hsf | hsf
      · left
        have : (splitQuery (splitFragment u2).1).1 ++ t2 = [] := h2 ▸ hsf
        exact List.append_eq_nil.mp this |>.1
      · exact Or.inr (hp.trans hsf)

theorem urlsplit_scheme_eq (dflt url : List Char) :
    (urlsplit dflt url).scheme = (schemePart dflt url).1 := rfl

theorem urlsplit_netloc_eq (dflt url : List Char) :
    (urlsplit dflt url).netloc = (splitNetloc (schemePart dflt url).2).1 := rfl

theorem urlsplit_path_eq (dflt url : List Char) :
    (urlsplit dflt url).path =
      (splitQuery (splitFragment (splitNetloc (schemePart dflt url).2).2).1).1 := rfl

theorem urlsplit_query_eq (dflt url : List Char) :
    (urlsplit dflt url).query =
      (splitQuery (splitFragment (splitNetloc (schemePart dflt url).2).2).1).2 := rfl

theorem urlsplit_fragment_eq (dflt url : List Char) :
    (urlsplit dflt url).fragment =
      (splitFragment (splitNetloc (schemePart dflt url).2).2).2 := rfl

theorem urlsplit_netloc_delim (dflt url : List Char) :
    ∀ c ∈ (urlsplit dflt url).netloc, notDelim c = true := by
  intro c hc
  rw [urlsplit_netloc_eq, splitNetloc] at hc
  by_cases h2 : (schemePart dflt url).2.take 2 = ['/', '/']
  · rw [if_pos h2] at hc
    exact List.mem_takeWhile_imp hc
  · rw [if_neg h2] at hc
    cases hc

theorem urlsplit_path_no_hash (dflt url : List Char) :
    '#' ∉ (urlsplit dflt url).path :=
  (pathPart_spec (splitNetloc (schemePart dflt url).2).2).2.1

theorem urlsplit_path_no_query (dflt url : List Char) :
    '?' ∉ (urlsplit dflt url).path :=
  (pathPart_spec (splitNetloc (schemePart dflt url).2).2).2.2.1

theorem mem_of_head_eq_some {x : Char} : ∀ {l : List Char}, l.head? = some x → x ∈ l
  | [], h => by cases h
  | y :: ys, h => by
    have : y = x := Option.some.inj h
    exact this ▸ List.mem_cons_self y ys

theorem pathOf_head (x : Char) (xs : List Char) :
    (splitQuery (splitFragment (x :: xs)).1).1 = [] ∨
      (splitQuery (splitFragment (x :: xs)).1).1.head? = some x := by
  rcases (pathPart_spec (x :: xs)).2.2.2 with hp | hp
  · exact Or.inl hp
  · exact Or.inr hp

theorem urlsplit_netloc_path_shape (dflt url : List Char)
    (hn : (urlsplit dflt url).netloc ≠ []) :
    (urlsplit dflt url).path = [] ∨ (urlsplit dflt url).path.head? = some '/' := by
  by_cases h2 : (schemePart dflt url).2.take 2 = ['/', '/']
  · have hu2 : (splitNetloc (schemePart dflt url).2).2 =
        ((schemePart dflt url).2.drop 2).dropWhile notDelim := by
      rw [splitNetloc, if_pos h2]
    have hpath : (urlsplit dflt url).path =
        (splitQuery (splitFragment
          (((schemePart dflt url).2.drop 2).dropWhile notDelim)).1).1 := by
      rw [urlsplit_path_eq, hu2]
    rcases dropWhile_shape notDelim ((schemePart dflt url).2.drop 2) with
      hnil | ⟨x, xs, hxeq, hxfalse⟩
    · left
      rw [hpath, hnil]
      rfl
    · rw [hxeq] at hpath
      have hxd : x = '/' ∨ x = '?' ∨ x = '#' := by
        by_contra hcon
        push_neg at hcon
        simp [notDelim, hcon.1, hcon.2.1, hcon.2.2] at hxfalse
      rcases pathOf_head x xs with hply | hply
      · left
        rw [hpath, hply]
      · rcases hxd with rfl | rfl | rfl
        · right
          rw [hpath]
          exact hply
        · exact absurd (mem_of_head_eq_some hply) (pathPart_spec ('?' :: xs)).2.2.1
        · exact absurd (mem_of_head_eq_some hply) (pathPart_spec ('#' :: xs)).2.1
  · exfalso
    apply hn
    rw [urlsplit_netloc_eq, splitNetloc, if_neg h2]

theorem urlsplit_scheme_valid (url : List Char) :
    (urlsplit [] url).scheme = [] ∨
      ∃ (c : Char) (cs : List Char),
        (urlsplit [] url).scheme = asciiLower c :: cs.map asciiLower ∧
        c ∈ ascii_letters ∧ ∀ d ∈ cs, d ∈ scheme_chars := by
  cases hs : splitScheme url with
  | none => left; rw [urlsplit_scheme_eq, schemePart_none hs]
  | some p =>
    obtain ⟨s, rest⟩ := p
    obtain ⟨c, cs, hse, hc, hcs, -⟩ := splitScheme_inv hs
    right
    refine ⟨c, cs, ?_, hc, hcs⟩
    rw [urlsplit_scheme_eq, schemePart_some hs, hse]
    rfl

theorem urlsplit_no_scheme_path (url : List Char) (h : (urlsplit [] url).scheme = []) :
    splitScheme (urlsplit [] url).path = none := by
  cases hs : splitScheme url with
  | some p =>
    obtain ⟨s, rest⟩ := p
    obtain ⟨c, cs, hse, -, -, -⟩ := splitScheme_inv hs
    rw [urlsplit_scheme_eq, schemePart_some hs] at h
    rw [hse] at h
    cases h
  | none =>
    have hw : (schemePart [] url).2 = url := by rw [schemePart_none hs]
    by_cases h2 : (schemePart [] url).2.take 2 = ['/', '/']
    · have hu2 : (splitNetloc (schemePart [] url).2).2 =
          ((schemePart [] url).2.drop 2).dropWhile notDelim := by
        rw [splitNetloc, if_pos h2]
      have hpath : (urlsplit [] url).path =
          (splitQuery (splitFragment
            (((schemePart [] url).2.drop 2).dropWhile notDelim)).1).1 := by
        rw [urlsplit_path_eq, hu2]
      rcases dropWhile_shape notDelim ((schemePart [] url).2.drop 2) with
        hnil | ⟨x, xs, hxeq, hxfalse⟩
      · rw [hpath, hnil]
        rfl
      · rw [hxeq] at hpath
        have hxd : x = '/' ∨ x = '?' ∨ x = '#' := by
          by_contra hcon
          push_neg at hcon
          simp [notDelim, hcon.1, hcon.2.1, hcon.2.2] at hxfalse
        rcases pathOf_head x xs with hply | hply
        · rw [hpath, hply]
          rfl
        · rw [hpath]
          cases hl : (splitQuery (splitFragment (x :: xs)).1).1 with
          | nil => rfl
          | cons y ys =>
            rw [hl] at hply
            have hyx : y = x := Option.some.inj hply
            refine hyx ▸ splitScheme_head_not_letter ys ?_
            rcases hxd with rfl | rfl | rfl <;> decide
    · have hu2 : (splitNetloc (schemePart [] url).2).2 = url := by
        rw [splitNetloc, if_neg h2, hw]
      obtain ⟨⟨t, hpre⟩, -, -, -⟩ :=
        pathPart_spec (splitNetloc (schemePart [] url).2).2
      rw [hu2] at hpre
      have hurl : url = (urlsplit [] url).path ++ t := by
        rw [urlsplit_path_eq, hu2]
        exact hpre
      refine splitScheme_none_append (t := t) ?_
      rw [← hurl]
      exact hs

theorem head_some_cons {x : Char} : ∀ {l : List Char}, l.head? = some x → ∃ xs, l = x :: xs
  | y :: ys, h => ⟨ys, by rw [Option.some.inj h]⟩

theorem urlsplit_build {dflt url : List Char} {s1 u1 n1 u2 p3 f1 p1 q1 : List Char}
    (h1 : schemePart dflt url = (s1, u1))
    (h2 : splitNetloc u1 = (n1, u2))
    (h3 : splitFragment u2 = (p3, f1))
    (h4 : splitQuery p3 = (p1, q1)) :
    urlsplit dflt url = ⟨s1, n1, p1, q1, f1⟩ := by
  have h0 : urlsplit dflt url = ⟨(schemePart dflt url).1,
      (splitNetloc (schemePart dflt url).2).1,
      (splitQuery (splitFragment (splitNetloc (schemePart dflt url).2).2).1).1,
      (splitQuery (splitFragment (splitNetloc (schemePart dflt url).2).2).1).2,
      (splitFragment (splitNetloc (schemePart dflt url).2).2).2⟩ := rfl
  rw [h0]
  simp only [h1, h2, h3, h4]

/-- Splitting the clean re-serialisation of canonical components recovers
exactly those components.  This is the core round-trip fact behind the
behaviour of `clean_src`. -/
theorem unsplit_split (s n p : List Char)
    (hs : s = [] ∨ ∃ (c : Char) (cs : List Char),
      s = asciiLower c :: cs.map asciiLower ∧ c ∈ ascii_letters ∧
        ∀ d ∈ cs, d ∈ scheme_chars)
    (hn : ∀ c ∈ n, notDelim c = true)
    (hph : '#' ∉ p) (hpq : '?' ∉ p)
    (hshape1 : n ≠ [] → p = [] ∨ p.head? = some '/')
    (hshape2 : n = [] → s = [] → splitScheme p = none) :
    urlsplit [] (urlunsplit ⟨s, n, p, [], []⟩) = ⟨s, n, p, [], []⟩ := by
  have h3 : splitFragment p = (p, []) := by
    rw [splitFragment, breakAt_of_not_mem hph]
  have h4 : splitQuery p = (p, []) := by
    rw [splitQuery, breakAt_of_not_mem hpq]
  have hstep : urlunsplit ⟨s, n, p, [], []⟩ =
      (if s ≠ [] then s ++ ':' ::
        (if n ≠ [] ∨ p.take 2 = ['/', '/'] then
          '/' :: '/' :: (n ++ (if p ≠ [] ∧ p.take 1 ≠ ['/'] then '/' :: p else p))
        else p)
      else
        (if n ≠ [] ∨ p.take 2 = ['/', '/'] then
          '/' :: '/' :: (n ++ (if p ≠ [] ∧ p.take 1 ≠ ['/'] then '/' :: p else p))
        else p)) := rfl
  by_cases hg : n ≠ [] ∨ p.take 2 = ['/', '/']
  · have hpcons : p = [] ∨ ∃ ps, p = '/' :: ps := by
      rcases hg with hne | ht2
      · rcases hshape1 hne with hp0 | hph2
        · exact Or.inl hp0
        · exact Or.inr (head_some_cons hph2)
      · cases p with
        | nil => exact Or.inl rfl
        | cons y ys =>
          right
          have hy : y = '/' := by
            have := congrArg (fun l => l.head?) ht2
            simpa using this
          exact ⟨ys, by rw [hy]⟩
    have hinner : ¬ (p ≠ [] ∧ p.take 1 ≠ ['/']) := by
      rcases hpcons with rfl | ⟨ps, rfl⟩
      · exact fun h => h.1 rfl
      · exact fun h => h.2 rfl
    have hpt : p.takeWhile notDelim = [] ∧ p.dropWhile notDelim = p := by
      rcases hpcons with rfl | ⟨ps, rfl⟩
      · exact ⟨rfl, rfl⟩
      · exact takeWhile_nil_head ps (by decide)
    have htw := takeWhile_append_all (q := notDelim) hn p
    have h2 : splitNetloc ('/' :: '/' :: (n ++ p)) = (n, p) := by
      rw [splitNetloc,
        if_pos (show List.take 2 ('/' :: '/' :: (n ++ p)) = ['/', '/'] from rfl)]
      have hd : List.drop 2 ('/' :: '/' :: (n ++ p)) = n ++ p := rfl
      rw [hd, htw.1, htw.2, hpt.1, hpt.2]
      simp
    rw [hstep]
    simp only [if_pos hg, if_neg hinner]
    rcases hs with rfl | ⟨c, cs, rfl, hc, hcs⟩
    · rw [if_neg (fun h => h rfl)]
      have hss : splitScheme ('/' :: '/' :: (n ++ p)) = none :=
        splitScheme_head_not_letter _ (by decide)
      exact urlsplit_build (schemePart_none hss) h2 h3 h4
    · rw [if_pos (List.cons_ne_nil _ _)]
      have hss := splitScheme_mk ('/' :: '/' :: (n ++ p)) hc hcs
      exact urlsplit_build (schemePart_some hss) h2 h3 h4
  · have hn0 : n = [] := by
      by_contra hcon
      exact hg (Or.inl hcon)
    have ht2 : ¬ p.take 2 = ['/', '/'] := fun hcon => hg (Or.inr hcon)
    subst hn0
    have h2 : splitNetloc p = ([], p) := by
      rw [splitNetloc, if_neg ht2]
    rw [hstep]
    simp only [if_neg hg]
    rcases hs with rfl | ⟨c, cs, rfl, hc, hcs⟩
    · rw [if_neg (fun h => h rfl)]
      exact urlsplit_build (schemePart_none (hshape2 rfl rfl)) h2 h3 h4
    · rw [if_pos (List.cons_ne_nil _ _)]
      have hss := splitScheme_mk p hc hcs
      exact urlsplit_build (schemePart_some hss) h2 h3 h4

/-- Round trip for the components actually produced by `urlsplit`. -/
theorem clean_round_trip (url : List Char) :
    urlsplit [] (urlunsplit ⟨(urlsplit [] url).scheme, (urlsplit [] url).netloc,
        (urlsplit [] url).path, [], []⟩) =
      ⟨(urlsplit [] url).scheme, (urlsplit [] url).netloc,
        (urlsplit [] url).path, [], []⟩ :=
  unsplit_split _ _ _ (urlsplit_scheme_valid url) (urlsplit_netloc_delim [] url)
    (urlsplit_path_no_hash [] url) (urlsplit_path_no_query [] url)
    (urlsplit_netloc_path_shape [] url) (fun _ h => urlsplit_no_scheme_path url h)

/-! ## ID assignment: decimal rendering and injectivity -/

theorem decChar_toNat {d : Nat} (h : d < 10) : (decChar d).toNat = 48 + d := by
  interval_cases d <;> rfl

theorem decimalVal_append (l : List Char) (c : Char) :
    decimalVal (l ++ [c]) = (decimalVal l) * 10 + (c.toNat - 48) := by
  rw [decimalVal, List.foldl_append]
  rfl

theorem decimalVal_natDigitsAux :
    ∀ (fuel n : Nat), n < fuel → decimalVal (natDigitsAux fuel n) = n
  | 0, n, h => absurd h (Nat.not_lt_zero n)
  | fuel + 1, n, h => by
    rw [natDigitsAux]
    by_cases h10 : n < 10
    · rw [if_pos h10]
      show 0 * 10 + ((decChar n).toNat - 48) = n
      rw [decChar_toNat h10]
      omega
    · rw [if_neg h10]
      have hlt : n / 10 < fuel := by
        have h1 : n / 10 < n := Nat.div_lt_self (by omega) (by omega)
        omega
      rw [decimalVal_append, decimalVal_natDigitsAux fuel (n / 10) hlt,
        decChar_toNat (Nat.mod_lt n (by omega))]
      omega

theorem decimalVal_natDigits (n : Nat) : decimalVal (natDigits n) = n :=
  decimalVal_natDigitsAux (n + 1) n (Nat.lt_succ_self n)

theorem decimalVal_pad (k : Nat) (l : List Char) :
    decimalVal (List.replicate k '0' ++ l) = decimalVal l := by
  induction k with
  | zero => rfl
  | succ k ih =>
    rw [List.replicate_succ, List.cons_append]
    show List.foldl (fun a c => a * 10 + (c.toNat - 48))
      (0 * 10 + ('0'.toNat - 48)) (List.replicate k '0' ++ l) = decimalVal l
    have h0 : 0 * 10 + ('0'.toNat - 48) = 0 := rfl
    rw [h0]
    exact ih

theorem decimalVal_pad4 (n : Nat) : decimalVal (pad4 n) = n := by
  rw [pad4, decimalVal_pad, decimalVal_natDigits]

theorem vidId_injective : Function.Injective vidId := by
  intro a b h
  have hdata : ('D' :: pad4 a) = ('D' :: pad4 b) := congrArg String.data h
  have hpad : pad4 a = pad4 b := (List.cons.injEq _ _ _ _ ▸ hdata).2
  have := congrArg decimalVal hpad
  rwa [decimalVal_pad4, decimalVal_pad4] at this

/-! ## The `entries` list -/

theorem entriesFrom_length (i : Nat) (l : List (String × String)) :
    (entriesFrom i l).length = l.length := by
  induction l generalizing i with
  | nil => rfl
  | cons hd tl ih =>
    obtain ⟨lab, lk⟩ := hd
    simp [entriesFrom, ih]

theorem entriesFrom_get :
    ∀ (l : List (String × String)) (i j : Nat) (hj : j < l.length)
      (hj2 : j < (entriesFrom i l).length),
      (entriesFrom i l).get ⟨j, hj2⟩ =
        { vid_id := vidId (i + j), url := urljoinS BASE_URL (l.get ⟨j, hj⟩).2,
          label := (l.get ⟨j, hj⟩).1, filename := vidId (i + j) ++ ".mp4" }
  | [], _, j, hj, _ => absurd hj (Nat.not_lt_zero j)
  | (lab, lk) :: tl, i, 0, hj, hj2 => rfl
  | (lab, lk) :: tl, i, j' + 1, hj, hj2 => by
    have hj' : j' < tl.length := Nat.lt_of_succ_lt_succ hj
    have hj2' : j' < (entriesFrom (i + 1) tl).length := by
      rw [entriesFrom_length]
      exact hj'
    have step : (entriesFrom i ((lab, lk) :: tl)).get ⟨j' + 1, hj2⟩ =
        (entriesFrom (i + 1) tl).get ⟨j', hj2'⟩ := rfl
    rw [step, entriesFrom_get tl (i + 1) j' hj' hj2']
    have harith : i + 1 + j' = i + (j' + 1) := by omega
    rw [harith]
    rfl

theorem entriesFrom_map_vid_id :
    ∀ (l : List (String × String)) (i : Nat),
      (entriesFrom i l).map Entry.vid_id = (List.range' i l.length).map vidId
  | [], _ => rfl
  | (lab, lk) :: tl, i => by
    show vidId i :: (entriesFrom (i + 1) tl).map Entry.vid_id =
      (List.range' i (tl.length + 1)).map vidId
    rw [List.range'_succ, List.map_cons, entriesFrom_map_vid_id tl (i + 1)]

theorem entries_nodup_ids (ad : List (String × String)) :
    ((entries ad).map Entry.vid_id).Nodup := by
  rw [entries, entriesFrom_map_vid_id ad 1]
  exact (List.nodup_range' 1 ad.length).map vidId_injective

/-! ## Download pipeline lemmas -/

theorem download_video_failEarly {net : String → NetResult} {fs : Fs} {e : Entry}
    (h : net e.url = NetResult.failEarly) : download_video net fs e = (none, fs) := by
  rw [download_video, h]

theorem download_video_body {net : String → NetResult} {fs : Fs} {e : Entry}
    {chunks : List Bytes} {ok : Bool} (h : net e.url = NetResult.body chunks ok) :
    download_video net fs e =
      (if ok then some (e.vid_id, e.filename, e.label) else none,
        fs.set (save_path e) chunks.flatten) := by
  rw [download_video, h]
  cases ok <;> rfl

theorem downloadRecord_failEarly {net : String → NetResult} {e : Entry}
    (h : net e.url = NetResult.failEarly) : downloadRecord net e = none := by
  rw [downloadRecord, download_video_failEarly h]

theorem downloadRecord_body {net : String → NetResult} {e : Entry}
    {chunks : List Bytes} {ok : Bool} (h : net e.url = NetResult.body chunks ok) :
    downloadRecord net e =
      (if ok then some (e.vid_id, e.filename, e.label) else none) := by
  rw [downloadRecord, download_video_body h]

theorem download_video_fst (net : String → NetResult) (fs : Fs) (e : Entry) :
    (download_video net fs e).1 = downloadRecord net e := by
  cases hne : net e.url with
  | failEarly => rw [download_video_failEarly hne, downloadRecord_failEarly hne]
  | body chunks ok => rw [download_video_body hne, downloadRecord_body hne]

theorem count_filterMap_eq (f : Entry → Option (String × String × String))
    (rec : String × String × String) :
    ∀ l : List Entry, (l.filterMap f).count rec = l.countP (fun e => f e == some rec)
  | [] => rfl
  | e :: l => by
    have ih := count_filterMap_eq f rec l
    rw [List.countP_cons, List.filterMap_cons]
    cases hf : f e with
    | none => simp [ih]
    | some b =>
      by_cases hbr : b = rec
      · subst hbr
        simp [List.count_cons, ih]
      · simp [List.count_cons, ih, hbr]

theorem mem_results_iff (net : String → NetResult) (completed : List Entry)
    (rec : String × String × String) :
    rec ∈ results net completed ↔ ∃ e ∈ completed, downloadRecord net e = some rec := by
  rw [results, List.mem_filterMap]

/-! ## Crawl loop lemmas -/

theorem crawl_page_append (xs ys : List CardOutcome) :
    crawl_page (xs ++ ys) = crawl_page xs ++ crawl_page ys := by
  induction xs with
  | nil => rfl
  | cons c rest ih =>
    cases c with
    | failure => simpa [crawl_page] using ih
    | success labelText src =>
      by_cases hsrc : src = "" <;> simp [crawl_page, hsrc, ih]

/-! ## Pagination lemmas -/

theorem pagesVisited_length (lp : Nat) : (pagesVisited lp).length = lp := by
  rw [pagesVisited, List.length_range']

theorem pagesVisited_mem (lp p : Nat) : p ∈ pagesVisited lp ↔ 1 ≤ p ∧ p ≤ lp := by
  rw [pagesVisited, List.mem_range'_1]
  omega

theorem pagesVisited_nodup (lp : Nat) : (pagesVisited lp).Nodup :=
  List.nodup_range' 1 lp

theorem pagesVisited_sorted (lp : Nat) : List.Chain' (· < ·) (pagesVisited lp) :=
  (List.pairwise_lt_range' 1 lp).chain'

theorem pagesVisited_count (lp p : Nat) :
    (pagesVisited lp).count p = if 1 ≤ p ∧ p ≤ lp then 1 else 0 := by
  by_cases h : 1 ≤ p ∧ p ≤ lp
  · rw [if_pos h]
    exact List.count_eq_one_of_mem (pagesVisited_nodup lp) ((pagesVisited_mem lp p).mpr h)
  · rw [if_neg h]
    exact List.count_eq_zero_of_not_mem (fun hm => h ((pagesVisited_mem lp p).mp hm))

/-! ## Claim theorems -/

/-- C1: for every crawled list `ad`, the `i`-th pair (0-based `i`, so 1-based
counter `i + 1`) yields the entry with ID `vidId (i + 1)` (the string `"D"`
followed by the counter zero-padded to four digits), the `urljoin`-resolved
URL, the crawled label, and filename `ID ++ ".mp4"`; the list of assigned IDs
is exactly `vidId` mapped over `1, …, n` (dense, 1-based, in crawl order) and
has no duplicates. -/
theorem entries_ids_spec (ad : List (String × String)) :
    (entries ad).length = ad.length ∧
    (∀ (i : Nat) (h : i < ad.length) (h2 : i < (entries ad).length),
      (entries ad).get ⟨i, h2⟩ =
        { vid_id := vidId (i + 1), url := urljoinS BASE_URL ((ad.get ⟨i, h⟩).2),
          label := (ad.get ⟨i, h⟩).1, filename := vidId (i + 1) ++ ".mp4" }) ∧
    ((entries ad).map Entry.vid_id = (List.range' 1 ad.length).map vidId) ∧
    ((entries ad).map Entry.vid_id).Nodup := by
  refine ⟨entriesFrom_length 1 ad, ?_, entriesFrom_map_vid_id ad 1,
    entries_nodup_ids ad⟩
  intro i h h2
  have h2' : i < (entriesFrom 1 ad).length := h2
  rw [show (entries ad).get ⟨i, h2⟩ = (entriesFrom 1 ad).get ⟨i, h2'⟩ from rfl,
    entriesFrom_get ad 1 i h h2']
  have harith : 1 + i = i + 1 := by omega
  rw [harith]

/-- Witness for C1 at a concrete crawled list. -/
theorem entries_ids_spec_witness :
    (entries [("hello", "videos/D1.mp4"), ("bye", "videos/D2.mp4")]).get
        ⟨1, by decide⟩ =
      { vid_id := vidId 2, url := urljoinS BASE_URL "videos/D2.mp4",
        label := "bye", filename := vidId 2 ++ ".mp4" } :=
  (entries_ids_spec [("hello", "videos/D1.mp4"), ("bye", "videos/D2.mp4")]).2.1
    1 (by decide) (by decide)

/-- C5: an error while processing one card is caught and the card skipped:
the pairs collected from earlier cards are preserved, later cards are still
processed, and a successful card contributes its pair in order (the embedding
of the card loop is total, so no per-card exception escapes it). -/
theorem crawl_page_skips_failures (pre post : List CardOutcome) :
    crawl_page (pre ++ CardOutcome.failure :: post) =
      crawl_page pre ++ crawl_page post ∧
    (∀ labelText src : String, src ≠ "" →
      crawl_page (pre ++ CardOutcome.success labelText src :: post) =
        crawl_page pre ++ (pyStrip labelText, clean_src src) :: crawl_page post) := by
  constructor
  · rw [crawl_page_append]
    rfl
  · intro labelText src hsrc
    rw [crawl_page_append]
    have hstep : crawl_page (CardOutcome.success labelText src :: post) =
        (pyStrip labelText, clean_src src) :: crawl_page post := by
      simp only [crawl_page]
      rw [if_neg hsrc]
    rw [hstep]

/-- Witness for C5 at concrete card lists. -/
theorem crawl_page_skips_failures_witness :
    crawl_page ([CardOutcome.success "a" "https://h/v.mp4"] ++
        CardOutcome.failure :: [CardOutcome.success "b" "https://h/w.mp4"]) =
      crawl_page [CardOutcome.success "a" "https://h/v.mp4"] ++
        crawl_page [CardOutcome.success "b" "https://h/w.mp4"] ∧
    crawl_page ([] ++ CardOutcome.success "b" "https://h/w.mp4" :: []) =
      crawl_page [] ++ (pyStrip "b", clean_src "https://h/w.mp4") :: crawl_page [] :=
  ⟨(crawl_page_skips_failures [CardOutcome.success "a" "https://h/v.mp4"]
      [CardOutcome.success "b" "https://h/w.mp4"]).1,
   (crawl_page_skips_failures [] []).2 "b" "https://h/w.mp4" (by decide)⟩

/-- C6: the crawl is a bounded loop over the detected page count: the page
list has length `get_last_page_number v`, contains each page `1 ≤ p ≤ last`
exactly once, is strictly increasing, and a failed pagination detection
yields `1`, so only the first page is crawled. -/
theorem page_loop_spec (v : PaginationView) :
    (pagesVisited (get_last_page_number v)).length = get_last_page_number v ∧
    (∀ p : Nat, p ∈ pagesVisited (get_last_page_number v) ↔
      1 ≤ p ∧ p ≤ get_last_page_number v) ∧
    (∀ p : Nat, (pagesVisited (get_last_page_number v)).count p =
      if 1 ≤ p ∧ p ≤ get_last_page_number v then 1 else 0) ∧
    List.Chain' (· < ·) (pagesVisited (get_last_page_number v)) ∧
    get_last_page_number PaginationView.failure = 1 ∧
    pagesVisited 1 = [1] :=
  ⟨pagesVisited_length _, fun p => pagesVisited_mem _ p,
   fun p => pagesVisited_count _ p, pagesVisited_sorted _, rfl, rfl⟩

/-- C2: for every run (any completion order `completed` of the submitted
entries `es`), the manifest rows contain exactly one record per entry whose
`download_video` returned a record — counted with multiplicity — and every
row originates from a successful entry; the CSV serialises exactly these
rows after the header. -/
theorem manifest_rows_spec (net : String → NetResult) (es completed : List Entry)
    (hperm : completed.Perm es) :
    (∀ rec : String × String × String,
      (results net completed).count rec =
        es.countP (fun e => downloadRecord net e == some rec)) ∧
    (∀ rec ∈ results net completed, ∃ e ∈ es, downloadRecord net e = some rec) ∧
    writeCsv (results net completed) =
      csvFile (["ID", "VIDEO", "LABEL"] :: (results net completed).map recordRow) := by
  refine ⟨?_, ?_, rfl⟩
  · intro rec
    rw [results, count_filterMap_eq]
    exact List.Perm.countP_eq _ hperm
  · intro rec hrec
    obtain ⟨e, he, hde⟩ := (mem_results_iff net completed rec).mp hrec
    exact ⟨e, hperm.mem_iff.mp he, hde⟩

/-- Witness for C2 with a two-entry run completing out of order. -/
theorem manifest_rows_spec_witness :
    (results netFirstOnly [sampleEntry2, sampleEntry]).count
        ("D0001", "D0001.mp4", "hello") =
      [sampleEntry, sampleEntry2].countP
        (fun e => downloadRecord netFirstOnly e ==
          some ("D0001", "D0001.mp4", "hello")) :=
  (manifest_rows_spec netFirstOnly [sampleEntry, sampleEntry2]
    [sampleEntry2, sampleEntry] (by decide)).1 ("D0001", "D0001.mp4", "hello")

/-- C7: the manifest text starts with exactly the header line
`ID,VIDEO,LABEL` (CRLF-terminated, as written by `csv.writer`), followed only
by the rows of successful downloads. -/
theorem manifest_header_spec (net : String → NetResult) (completed : List Entry) :
    writeCsv (results net completed) =
      "ID,VIDEO,LABEL\r\n" ++ csvFile ((results net completed).map recordRow) ∧
    (∀ rec ∈ results net completed,
      ∃ e ∈ completed, downloadRecord net e = some rec) := by
  constructor
  · show csvRow ["ID", "VIDEO", "LABEL"] ++
      csvFile ((results net completed).map recordRow) = _
    have hh : csvRow ["ID", "VIDEO", "LABEL"] = "ID,VIDEO,LABEL\r\n" := by decide
    rw [hh]
  · intro rec hrec
    exact (mem_results_iff net completed rec).mp hrec

/-- Witness for C7 at a concrete run. -/
theorem manifest_header_spec_witness :
    writeCsv (results netFirstOnly [sampleEntry]) =
      "ID,VIDEO,LABEL\r\n" ++
        csvFile ((results netFirstOnly [sampleEntry]).map recordRow) ∧
    ∃ e ∈ [sampleEntry],
      downloadRecord netFirstOnly e = some ("D0001", "D0001.mp4", "hello") :=
  ⟨(manifest_header_spec netFirstOnly [sampleEntry]).1,
   (manifest_header_spec netFirstOnly [sampleEntry]).2
     ("D0001", "D0001.mp4", "hello") (by decide)⟩

/-- C10: the label CSV is written unconditionally, overwriting whatever the
text file system previously held at `LABEL_PATH`; and when no entries were
scraped or every download failed, the written file is exactly the header
line. -/
theorem manifest_always_written_spec (tfs : TextFs) (net : String → NetResult)
    (es completed : List Entry) (hperm : completed.Perm es) :
    writeLabelFile tfs (results net completed) LABEL_PATH =
      some (writeCsv (results net completed)) ∧
    (es = [] ∨ (∀ e ∈ es, downloadRecord net e = none) →
      writeCsv (results net completed) = "ID,VIDEO,LABEL\r\n") := by
  constructor
  · show (if LABEL_PATH = LABEL_PATH then some (writeCsv (results net completed))
      else tfs LABEL_PATH) = some (writeCsv (results net completed))
    rw [if_pos rfl]
  · intro h
    have hres : results net completed = [] := by
      rw [results, List.filterMap_eq_nil_iff]
      intro e he
      rcases h with h | h
      · have hmem : e ∈ es := hperm.mem_iff.mp he
        rw [h] at hmem
        cases hmem
      · exact h e (hperm.mem_iff.mp he)
    rw [hres]
    decide

/-- Witness for C10: an all-failing run over one entry, with a pre-existing
file at the label path. -/
theorem manifest_always_written_spec_witness :
    writeLabelFile (fun _ => some "old") (results netFailAll [sampleEntry])
        LABEL_PATH = some (writeCsv (results netFailAll [sampleEntry])) ∧
    writeCsv (results netFailAll [sampleEntry]) = "ID,VIDEO,LABEL\r\n" := by
  have h := manifest_always_written_spec (fun _ => some "old") netFailAll
    [sampleEntry] [sampleEntry] (List.Perm.refl _)
  exact ⟨h.1, h.2 (Or.inr (by decide))⟩

/-- C3 (counterexample): a mid-stream failure makes `download_video` return
`None`, yet a partially written file exists at the entry's save path, so the
file-system state is not unchanged for that failed download. -/
theorem partial_file_counterexample :
    (download_video netMidStream emptyFs sampleEntry).1 = none ∧
    (download_video netMidStream emptyFs sampleEntry).2 (save_path sampleEntry) =
      some [104, 105] ∧
    emptyFs (save_path sampleEntry) = none := by
  refine ⟨rfl, ?_, rfl⟩
  decide

/-- C3 (amended): when the request or status check fails before the body is
opened, the entry's path — and the whole file system — is unchanged; when the
stream fails mid-transfer, the partially written chunks remain on disk while
the entry is still dropped (returns `None`). -/
theorem failed_download_fs_spec (net : String → NetResult) (fs : Fs) (e : Entry) :
    (net e.url = NetResult.failEarly →
      (download_video net fs e).1 = none ∧ (download_video net fs e).2 = fs) ∧
    (∀ chunks : List Bytes, net e.url = NetResult.body chunks false →
      (download_video net fs e).1 = none ∧
      (download_video net fs e).2 = fs.set (save_path e) chunks.flatten) := by
  constructor
  · intro h
    rw [download_video_failEarly h]
    exact ⟨rfl, rfl⟩
  · intro chunks h
    rw [download_video_body h]
    exact ⟨rfl, rfl⟩

/-- Witness for the amended C3 at a concrete mid-stream failure. -/
theorem failed_download_fs_spec_witness :
    (download_video netMidStream emptyFs sampleEntry).1 = none ∧
    (download_video netMidStream emptyFs sampleEntry).2 =
      emptyFs.set (save_path sampleEntry) ([[104, 105]] : List Bytes).flatten :=
  (failed_download_fs_spec netMidStream emptyFs sampleEntry).2 [[104, 105]] rfl

/-- C4: `download_video` consults the network oracle for its URL once and
either returns the `(vid_id, filename, label)` record after writing the full
body, or returns `None` (request failure leaves the state untouched, a
mid-stream failure leaves the partial write); its result is always one of
these two — the blanket `except` means no exception escapes. -/
theorem download_video_spec (net : String → NetResult) (fs : Fs) (e : Entry) :
    (net e.url = NetResult.failEarly → download_video net fs e = (none, fs)) ∧
    (∀ chunks : List Bytes, net e.url = NetResult.body chunks true →
      download_video net fs e =
        (some (e.vid_id, e.filename, e.label),
          fs.set (save_path e) chunks.flatten)) ∧
    (∀ chunks : List Bytes, net e.url = NetResult.body chunks false →
      (download_video net fs e).1 = none) ∧
    ((download_video net fs e).1 = none ∨
      (download_video net fs e).1 = some (e.vid_id, e.filename, e.label)) := by
  refine ⟨fun h => download_video_failEarly h, ?_, ?_, ?_⟩
  · intro chunks h
    rw [download_video_body h]
    rfl
  · intro chunks h
    rw [download_video_body h]
    rfl
  · cases hne : net e.url with
    | failEarly =>
      left
      rw [download_video_failEarly hne]
    | body chunks ok =>
      rw [download_video_body hne]
      cases ok
      · left; rfl
      · right; rfl

/-- Witness for C4 at a concrete successful download. -/
theorem download_video_spec_witness :
    download_video netFirstOnly emptyFs sampleEntry =
      (some (sampleEntry.vid_id, sampleEntry.filename, sampleEntry.label),
        emptyFs.set (save_path sampleEntry) ([[1, 2], [3]] : List Bytes).flatten) :=
  (download_video_spec netFirstOnly emptyFs sampleEntry).2.1 [[1, 2], [3]] (by decide)

/-! ## `clean_src` and `urljoin` claim theorems -/

theorem clean_src_data (src : String) :
    (clean_src src).data = urlunsplit ⟨(urlsplit [] src.data).scheme,
      (urlsplit [] src.data).netloc, (urlsplit [] src.data).path, [], []⟩ := rfl

theorem clean_src_split (src : String) :
    urlsplit [] (clean_src src).data =
      ⟨(urlsplit [] src.data).scheme, (urlsplit [] src.data).netloc,
        (urlsplit [] src.data).path, [], []⟩ := by
  rw [clean_src_data]
  exact clean_round_trip src.data

theorem clean_src_idem (src : String) : clean_src (clean_src src) = clean_src src := by
  apply String.ext
  rw [clean_src_data (clean_src src), clean_src_split src]
  rfl

/-- C8 (amended): the pair stored by `crawl_page` for a successful card is
`(label.strip(), clean_src src)`, where re-splitting `clean_src src` recovers
the parsed scheme (already lower-cased by `urlsplit`), netloc and path of the
original `src` with empty query and fragment; cleaning is idempotent. -/
theorem clean_src_spec (src : String) :
    urlsplit [] (clean_src src).data =
      ⟨(urlsplit [] src.data).scheme, (urlsplit [] src.data).netloc,
        (urlsplit [] src.data).path, [], []⟩ ∧
    clean_src (clean_src src) = clean_src src ∧
    (∀ labelText : String, crawl_page [CardOutcome.success labelText src] =
      if src = "" then [] else [(pyStrip labelText, clean_src src)]) := by
  refine ⟨clean_src_split src, clean_src_idem src, ?_⟩
  intro labelText
  by_cases h : src = ""
  · simp [crawl_page, h]
  · simp [crawl_page, h]

/-- C8 (counterexample): the stored URL is not always the original with only
query and fragment removed — the scheme is lower-cased, so for an upper-case
scheme the scheme is not preserved unchanged. -/
theorem clean_src_scheme_counterexample :
    crawl_page [CardOutcome.success "hello"
        "HTTPS://qipedc.moet.gov.vn/D0001.mp4?autoplay=1"] =
      [("hello", "https://qipedc.moet.gov.vn/D0001.mp4")] ∧
    ("https://qipedc.moet.gov.vn/D0001.mp4" : String) ≠
      "HTTPS://qipedc.moet.gov.vn/D0001.mp4" := by
  constructor
  · decide
  · decide

theorem urlparse_scheme (dflt url : List Char) :
    (urlparse dflt url).scheme = (urlsplit dflt url).scheme := by
  rw [urlparse]
  by_cases hc : (urlsplit dflt url).scheme ∈ uses_params ∧
    ';' ∈ (urlsplit dflt url).path
  · rw [if_pos hc]
  · rw [if_neg hc]

theorem urlsplit_dflt_irrel {url : List Char} (dflt : List Char)
    {pr : List Char × List Char} (h : splitScheme url = some pr) :
    urlsplit dflt url = urlsplit [] url := by
  obtain ⟨s, rest⟩ := pr
  have h0 : ∀ d : List Char, urlsplit d url = ⟨(schemePart d url).1,
      (splitNetloc (schemePart d url).2).1,
      (splitQuery (splitFragment (splitNetloc (schemePart d url).2).2).1).1,
      (splitQuery (splitFragment (splitNetloc (schemePart d url).2).2).1).2,
      (splitFragment (splitNetloc (schemePart d url).2).2).2⟩ := fun d => rfl
  rw [h0 dflt, h0 [], schemePart_some h, schemePart_some h]

theorem urlparse_no_semi {dflt url : List Char}
    (h : ';' ∉ (urlsplit dflt url).path) :
    urlparse dflt url = ⟨(urlsplit dflt url).scheme, (urlsplit dflt url).netloc,
      (urlsplit dflt url).path, [], (urlsplit dflt url).query,
      (urlsplit dflt url).fragment⟩ := by
  rw [urlparse, if_neg (fun hc => h hc.2)]

theorem base_parse_eval : urlparse [] BASE_URL.data =
    ⟨"https".data, "qipedc.moet.gov.vn".data, "/dictionary".data, [], [], []⟩ := by
  decide

theorem urljoin_unfold {base url : List Char} (hb : ¬ base = []) (hu : ¬ url = []) :
    urljoin base url =
      if (urlparse (urlparse [] base).scheme url).scheme ≠
          (urlparse [] base).scheme ∨
          (urlparse (urlparse [] base).scheme url).scheme ∉ uses_relative then url
      else urljoinResolve (urlparse [] base)
        (urlparse (urlparse [] base).scheme url) := by
  rw [urljoin, if_neg hb, if_neg hu]

theorem urljoinResolve_netloc {b u : ParseResult}
    (h : u.scheme ∈ uses_netloc ∧ u.netloc ≠ []) :
    urljoinResolve b u =
      urlunparse ⟨u.scheme, u.netloc, u.path, u.params, u.query, u.fragment⟩ := by
  rw [urljoinResolve, if_pos h]

theorem urlsplit_scheme_of_some {dflt url s rest : List Char}
    (h : splitScheme url = some (s, rest)) : (urlsplit dflt url).scheme = s := by
  rw [urlsplit_scheme_eq, schemePart_some h]

theorem urljoin_foreign_scheme {url s rest : List Char}
    (hsp : splitScheme url = some (s, rest)) (hneq : s ≠ "https".data) :
    urljoin BASE_URL.data url = url := by
  have hu : ¬ url = [] := by
    intro h
    rw [h] at hsp
    exact Option.noConfusion hsp
  have hbs : (urlparse [] BASE_URL.data).scheme = "https".data := by
    rw [base_parse_eval]
  have hcond : (urlparse (urlparse [] BASE_URL.data).scheme url).scheme ≠
      (urlparse [] BASE_URL.data).scheme ∨
      (urlparse (urlparse [] BASE_URL.data).scheme url).scheme ∉ uses_relative := by
    left
    rw [urlparse_scheme, urlsplit_scheme_of_some hsp, hbs]
    exact hneq
  rw [urljoin_unfold (by decide) hu, if_pos hcond]

theorem urljoin_identity_netloc {url n p : List Char}
    (hsplit : urlsplit [] url = ⟨"https".data, n, p, [], []⟩)
    (hclean : urlunsplit ⟨"https".data, n, p, [], []⟩ = url)
    (hn : n ≠ []) (hsemi : ';' ∉ p) :
    urljoin BASE_URL.data url = url := by
  have hu : ¬ url = [] := by
    intro h
    rw [h] at hsplit
    have h2 : (urlsplit [] []).scheme = "https".data :=
      congrArg SplitResult.scheme hsplit
    exact absurd h2 (by decide)
  have hbs : (urlparse [] BASE_URL.data).scheme = "https".data := by
    rw [base_parse_eval]
  cases hss : splitScheme url with
  | none =>
    exfalso
    have h2 : (urlsplit [] url).scheme = [] := by
      rw [urlsplit_scheme_eq, schemePart_none hss]
    rw [hsplit] at h2
    have h2b : ("https".data : List Char) = [] := h2
    exact absurd h2b (by decide)
  | some pr =>
    have hirr := urlsplit_dflt_irrel "https".data hss
    have husch : (urlparse "https".data url).scheme = "https".data := by
      rw [urlparse_scheme, hirr, hsplit]
    have hpath : ';' ∉ (urlsplit "https".data url).path := by
      rw [hirr, hsplit]
      exact hsemi
    have hup : urlparse "https".data url = ⟨"https".data, n, p, [], [], []⟩ := by
      rw [urlparse_no_semi hpath, hirr, hsplit]
    rw [urljoin_unfold (by decide) hu, hbs]
    have hcond : ¬ ((urlparse "https".data url).scheme ≠ "https".data ∨
        (urlparse "https".data url).scheme ∉ uses_relative) := by
      rw [husch]
      intro hor
      rcases hor with hc | hc
      · exact hc rfl
      · exact hc (by decide)
    rw [if_neg hcond, hup, urljoinResolve_netloc
      ⟨(by decide : ("https".data : List Char) ∈ uses_netloc), hn⟩]
    exact hclean

/-- C9 (amended): every entry's URL is the scraped link resolved against the
hardcoded base with `urljoin`.  A scraped URL carrying a scheme is returned
unchanged when its scheme differs from the base's `https`, and an
`https`-schemed URL with a network location (and no `;` in its cleaned path)
is likewise unchanged; an `https`-schemed URL without a network location is
instead resolved against the base path (see the counterexample). -/
theorem urljoin_spec (link : String) (s rest : List Char)
    (hsp : splitScheme link.data = some (s, rest)) :
    (∀ (ad : List (String × String)) (i : Nat) (h : i < ad.length)
      (h2 : i < (entries ad).length),
      ((entries ad).get ⟨i, h2⟩).url = urljoinS BASE_URL ((ad.get ⟨i, h⟩).2)) ∧
    (s ≠ "https".data → urljoinS BASE_URL link = link) ∧
    (∀ n p : List Char, urlsplit [] link.data = ⟨"https".data, n, p, [], []⟩ →
      urlunsplit ⟨"https".data, n, p, [], []⟩ = link.data →
      n ≠ [] → ';' ∉ p → urljoinS BASE_URL link = link) := by
  refine ⟨?_, ?_, ?_⟩
  · intro ad i h h2
    have h2' : i < (entriesFrom 1 ad).length := h2
    rw [show (entries ad).get ⟨i, h2⟩ = (entriesFrom 1 ad).get ⟨i, h2'⟩ from rfl,
      entriesFrom_get ad 1 i h h2']
  · intro hneq
    apply String.ext
    exact urljoin_foreign_scheme hsp hneq
  · intro n p hsplit hclean hn hsemi
    apply String.ext
    exact urljoin_identity_netloc hsplit hclean hn hsemi

/-- Witness for the amended C9: a foreign-scheme URL and a full
`https`-absolute URL both pass through `urljoin` unchanged. -/
theorem urljoin_spec_witness :
    urljoinS BASE_URL "ftp://other/x.mp4" = "ftp://other/x.mp4" ∧
    urljoinS BASE_URL "https://cdn.example/v.mp4" = "https://cdn.example/v.mp4" :=
  ⟨(urljoin_spec "ftp://other/x.mp4" "ftp".data "//other/x.mp4".data
      (by decide)).2.1 (by decide),
   (urljoin_spec "https://cdn.example/v.mp4" "https".data
      "//cdn.example/v.mp4".data (by decide)).2.2 "cdn.example".data
      "/v.mp4".data (by decide) (by decide) (by decide) (by decide)⟩

/-- C9 (counterexample): `"https:V0001.mp4"` has a scheme (it is "absolute"
in the sense of the claim) and is a fixed point of the crawler's URL
cleaning, yet resolution is not the identity on it: `urljoin` resolves its
path against the base. -/
theorem urljoin_scheme_counterexample :
    clean_src "https:V0001.mp4" = "https:V0001.mp4" ∧
    splitScheme ("https:V0001.mp4" : String).data =
      some ("https".data, "V0001.mp4".data) ∧
    urljoinS BASE_URL "https:V0001.mp4" =
      "https://qipedc.moet.gov.vn/V0001.mp4" ∧
    ("https://qipedc.moet.gov.vn/V0001.mp4" : String) ≠ "https:V0001.mp4" := by
  refine ⟨by decide, by decide, ?_, by decide⟩
  decide
